import Mathlib

/-!
# Verification of the draft-session store of `random-champ-js`

Shallow embedding of the Zustand store in `src/store/useAppStore.ts`.

Modelling conventions:
* `Lane` is the closed five-element role type from `src/data/champions.ts`.
* JS `Record<Lane, T>` objects are total `LaneMap`s; a partial record
  (`rerolledLanes`, `pendingSelections`) wraps the value in `Option`,
  `none` meaning the key is absent.
* `pendingSelections : Record<Lane, string | null>` becomes
  `LaneMap (Option (Option String))`: outer `Option` = key present,
  inner `Option` = `null` vs a champion name.
* JS `Set` values (`randomizedLanes`, `playedChampions`, ...) are lists
  kept duplicate-free by `setInsert` (insertion order, like JS `Set`).
* Timestamps are `Nat` instants: the code keys teams by the
  `toISOString()` string and sorts by `new Date(ts).getTime()`; since
  `toISOString` is injective and order-preserving on instants, keying
  and ordering by the underlying instant is the same map and order.
* `Math.floor(Math.random() * n)` is an arbitrary draw `k % n`, with the
  draw `k : Nat` passed in as a parameter; `Date.now()` / the current
  instant is likewise a parameter `now : Nat`.
* Network calls issued by an action are collected in a `List ApiCall`
  trace; a `Bool`/`Option` parameter selects the success or failure
  branch of an awaited remote call, and the fetched payload (when the
  branch uses one) is a parameter as well.
* Champion names are nonempty strings, so the JS truthiness test
  `if (champion)` on a `string | null` coincides with the null test and
  is modelled as matching `some c`.
-/

inductive Lane where
  | top
  | jungle
  | mid
  | adc
  | support
deriving DecidableEq, Repr, Fintype

/-- The five roles, in the declaration order of the `championPools`
object literal (the order `Object.entries`/`Object.values` iterate). -/
def Lane.all : List Lane := [.top, .jungle, .mid, .adc, .support]

theorem Lane.mem_all (l : Lane) : l ∈ Lane.all := by
  cases l <;> simp [Lane.all]

/-- A total mapping from roles to values (a JS `Record<Lane, T>`). -/
structure LaneMap (α : Type) where
  top : α
  jungle : α
  mid : α
  adc : α
  support : α
deriving DecidableEq, Repr

def LaneMap.get (m : LaneMap α) : Lane → α
  | .top => m.top
  | .jungle => m.jungle
  | .mid => m.mid
  | .adc => m.adc
  | .support => m.support

def LaneMap.set (m : LaneMap α) : Lane → α → LaneMap α
  | .top, v => { m with top := v }
  | .jungle, v => { m with jungle := v }
  | .mid, v => { m with mid := v }
  | .adc, v => { m with adc := v }
  | .support, v => { m with support := v }

def LaneMap.const (v : α) : LaneMap α := ⟨v, v, v, v, v⟩

theorem LaneMap.get_set (m : LaneMap α) (l l' : Lane) (v : α) :
    (m.set l v).get l' = if l' = l then v else m.get l' := by
  cases l <;> cases l' <;> simp [LaneMap.set, LaneMap.get]

@[simp] theorem LaneMap.get_set_self (m : LaneMap α) (l : Lane) (v : α) :
    (m.set l v).get l = v := by
  cases l <;> simp [LaneMap.set, LaneMap.get]

theorem LaneMap.get_set_ne (m : LaneMap α) {l l' : Lane} (v : α) (h : l' ≠ l) :
    (m.set l v).get l' = m.get l' := by
  rw [LaneMap.get_set, if_neg h]

@[simp] theorem LaneMap.get_const (v : α) (l : Lane) :
    (LaneMap.const v).get l = v := by
  cases l <;> simp [LaneMap.const, LaneMap.get]

/-- Insert into a JS-`Set`-like duplicate-free list (`Set.prototype.add`). -/
def setInsert [DecidableEq α] (l : List α) (a : α) : List α :=
  if a ∈ l then l else l ++ [a]

theorem mem_setInsert [DecidableEq α] (l : List α) (a b : α) :
    b ∈ setInsert l a ↔ b ∈ l ∨ b = a := by
  unfold setInsert
  split
  · constructor
    · exact Or.inl
    · rintro (h | rfl) <;> assumption
  · simp

/-- `SavedTeam` from `src/types.ts`: an entry of the remote team ledger. -/
structure SavedTeam where
  timestamp : Nat
  team : LaneMap (Option String)
  isAdminCreated : Bool := false
deriving DecidableEq, Repr

/-- `IncompleteTeam` from `src/types.ts`: a locally persisted draft snapshot. -/
structure IncompleteTeam where
  id : String
  timestamp : Nat
  team : LaneMap (Option String)
  rerolledLanes : LaneMap (Option (String × String))
  pendingSelections : LaneMap (Option (Option String))
  hasUsedReroll : Bool
deriving DecidableEq, Repr

/-- The state fields of the store in `useAppStore.ts`. -/
structure AppState where
  selectedChampions : LaneMap (Option String)
  randomizedLanes : List Lane
  playedChampions : List String
  teamLocked : Bool
  displayingSavedTeam : Bool
  savedTeams : List SavedTeam
  rerolledLanes : LaneMap (Option (String × String))
  pendingSelections : LaneMap (Option (Option String))
  hasUsedReroll : Bool
  incompleteTeams : List IncompleteTeam
  currentTeamId : Option String
  resetRoles : List Lane
  championPools : LaneMap (List String)
  availableChampions : LaneMap (List String)
deriving DecidableEq, Repr

/-- A remote call issued through `apiService` (the trace of an action). -/
inductive ApiCall where
  | removeAvailable (lane : Lane) (champion : String)
  | restoreAvailable (lane : Lane) (champion : String)
  | deleteTeam (timestamp : Nat)
  | saveTeam (team : SavedTeam)
  | getSavedTeams
  | loadAvailable (lane : Lane)
deriving DecidableEq, Repr

/-- `getChampionLanes`: every lane whose champion pool contains the champion
(`Object.entries(state.championPools)` iterates lanes in declaration order). -/
def getChampionLanes (s : AppState) (champion : String) : List Lane :=
  Lane.all.filter (fun l => champion ∈ s.championPools.get l)

/-- The set membership test of the `incompleteTeamChampions` set built inside
`getAvailableChampions`: the champion appears in some incomplete team whose
id differs from `currentTeamId`. -/
def isOtherTeamChampion (s : AppState) (c : String) : Bool :=
  s.incompleteTeams.any (fun t =>
    decide (s.currentTeamId ≠ some t.id) &&
      Lane.all.any (fun l => decide (t.team.get l = some c)))

/-- `getAvailableChampions`: the API-loaded availability list for the lane,
minus champions selected in other sessions' incomplete teams. -/
def getAvailableChampions (s : AppState) (lane : Lane) : List String :=
  (s.availableChampions.get lane).filter (fun c => !(isOtherTeamChampion s c))

/-- `canLockIn`: every present `pendingSelections` entry is non-null
(`Object.keys(...).every(lane => pendingSelections[lane] !== null)`,
vacuously true when no entry is present). -/
def canLockIn (s : AppState) : Bool :=
  Lane.all.all (fun l =>
    match s.pendingSelections.get l with
    | some none => false
    | _ => true)

/-- The id string `` `team-${Date.now()}` `` allocated for a fresh session. -/
def freshTeamId (now : Nat) : String :=
  "team-" ++ toString now

/-- `saveIncompleteTeam`: snapshot the draft under `currentTeamId` (allocated
from `now` when null), replacing the first entry with that id (`findIndex`)
or appending. The `localStorage` mirror write carries no further state. -/
def saveIncompleteTeam (s : AppState) (now : Nat) : AppState :=
  let id := s.currentTeamId.getD (freshTeamId now)
  let team : IncompleteTeam :=
    { id := id
      timestamp := now
      team := s.selectedChampions
      rerolledLanes := s.rerolledLanes
      pendingSelections := s.pendingSelections
      hasUsedReroll := s.hasUsedReroll }
  let newIncompleteTeams :=
    match s.incompleteTeams.findIdx? (fun t => t.id = id) with
    | some i => s.incompleteTeams.set i team
    | none => s.incompleteTeams ++ [team]
  { s with incompleteTeams := newIncompleteTeams, currentTeamId := some id }

/-- `randomizeChampion` (synchronous part): guard on an empty candidate list,
then pick `available[k % len]`, mark the lane randomized, and allocate
`currentTeamId` when null. The snapshot save scheduled via `setTimeout`
runs later on the event loop and is `saveIncompleteTeam` applied then. -/
def randomizeChampion (s : AppState) (lane : Lane) (k : Nat) (now : Nat) : AppState :=
  let available := getAvailableChampions s lane
  if available.length = 0 then s
  else
    let champion := available.getD (k % available.length) ""
    { s with
      selectedChampions := s.selectedChampions.set lane (some champion)
      randomizedLanes := setInsert s.randomizedLanes lane
      currentTeamId := some (s.currentTeamId.getD (freshTeamId now)) }

/-- `rerandomizeLane`: one-shot reroll. Guards: `hasUsedReroll`, an existing
selection, a nonempty candidate list, and a nonempty candidate list minus the
original. Effect: record `{original, rerolled}`, set the pending selection to
null, set `hasUsedReroll`, then save the incomplete-team snapshot. -/
def rerandomizeLane (s : AppState) (lane : Lane) (k : Nat) (now : Nat) : AppState :=
  if s.hasUsedReroll then s
  else
    let available := getAvailableChampions s lane
    match s.selectedChampions.get lane with
    | none => s
    | some originalChampion =>
      if available.length = 0 then s
      else
        let availableWithoutOriginal := available.filter (fun c => c ≠ originalChampion)
        if availableWithoutOriginal.length = 0 then s
        else
          let rerolledChampion :=
            availableWithoutOriginal.getD (k % availableWithoutOriginal.length) ""
          let s' :=
            { s with
              rerolledLanes :=
                s.rerolledLanes.set lane (some (originalChampion, rerolledChampion))
              pendingSelections := s.pendingSelections.set lane (some none)
              hasUsedReroll := true }
          saveIncompleteTeam s' now

/-- `selectRerollChampion`: record the choice as the pending selection and the
selected champion, drop the lane's `rerolledLanes` entry, save the snapshot. -/
def selectRerollChampion (s : AppState) (lane : Lane) (champion : String) (now : Nat) :
    AppState :=
  let s' :=
    { s with
      pendingSelections := s.pendingSelections.set lane (some (some champion))
      selectedChampions := s.selectedChampions.set lane (some champion) }
  let s'' := { s' with rerolledLanes := s'.rerolledLanes.set lane none }
  saveIncompleteTeam s'' now

/-- `resetForNewGame`: clear the draft-session fields. -/
def resetForNewGame (s : AppState) : AppState :=
  { s with
    selectedChampions := LaneMap.const none
    randomizedLanes := []
    teamLocked := false
    displayingSavedTeam := false
    rerolledLanes := LaneMap.const none
    pendingSelections := LaneMap.const none
    hasUsedReroll := false
    currentTeamId := none }

/-- `deleteIncompleteTeam`: drop the snapshot with the given id, clear
`currentTeamId` when it pointed at it. The function issues no `apiService`
call (champions of incomplete teams were never written to the remote
availability store, so nothing is restored). -/
def deleteIncompleteTeam (s : AppState) (id : String) : AppState × List ApiCall :=
  let newIncompleteTeams := s.incompleteTeams.filter (fun t => t.id ≠ id)
  let newCurrentTeamId := if s.currentTeamId = some id then none else s.currentTeamId
  ({ s with incompleteTeams := newIncompleteTeams, currentTeamId := newCurrentTeamId }, [])

/-- Resolution of one pending entry onto a selection
(`if (champion) finalChampions[lane] = champion`). -/
def resolvePend (p : Option (Option String)) (sel : Option String) : Option String :=
  match p with
  | some (some c) => some c
  | _ => sel

/-- The `finalChampions` computation of `lockInTeam`: selections overridden
by every resolved pending selection. -/
def applyPending (sel : LaneMap (Option String)) (pend : LaneMap (Option (Option String))) :
    LaneMap (Option String) :=
  { top := resolvePend pend.top sel.top
    jungle := resolvePend pend.jungle sel.jungle
    mid := resolvePend pend.mid sel.mid
    adc := resolvePend pend.adc sel.adc
    support := resolvePend pend.support sel.support }

/-- Collect the non-null champions of a role mapping into a JS `Set`
(lane order, duplicate-free). -/
def collectChamps (m : LaneMap (Option String)) : List String :=
  Lane.all.foldl
    (fun acc l =>
      match m.get l with
      | some c => setInsert acc c
      | none => acc) []

/-- Add every non-null champion of a role mapping to a played-champions set. -/
def addAllChamps (played : List String) (m : LaneMap (Option String)) : List String :=
  Lane.all.foldl
    (fun acc l =>
      match m.get l with
      | some c => setInsert acc c
      | none => acc) played

/-- Filter each champion out of the availability lists of every lane it can
play (the local mirror of the `removeAvailableChampion` fan-out). -/
def removeFromAvailable (av : LaneMap (List String)) (s : AppState) (champs : List String) :
    LaneMap (List String) :=
  champs.foldl
    (fun m c =>
      (getChampionLanes s c).foldl
        (fun m2 l => m2.set l ((m2.get l).filter (fun x => x ≠ c))) m) av

/-- `lockInTeam`: guard on `canLockIn`; apply pending selections; record the
played champions; delete the current incomplete snapshot; append the new
`SavedTeam` optimistically; reset the session; remove the picked champions
from local availability across all their lanes. The trace carries the
`removeAvailableChampion` fan-out and the fire-and-forget background
`saveTeam` + ledger reload; their responses arrive after this action
returns and are absorbed by later reconciliation, so only the calls are
recorded here. -/
def lockInTeam (s : AppState) (now : Nat) : AppState × List ApiCall :=
  if canLockIn s then
    let finalChampions := applyPending s.selectedChampions s.pendingSelections
    let newPlayedChampions := addAllChamps s.playedChampions finalChampions
    let teamToSave : SavedTeam :=
      { timestamp := now, team := finalChampions, isAdminCreated := false }
    let s1 :=
      match s.currentTeamId with
      | some id => (deleteIncompleteTeam s id).1
      | none => s
    let updatedSavedTeams := s.savedTeams ++ [teamToSave]
    let s2 := resetForNewGame s1
    let s3 := { s2 with playedChampions := newPlayedChampions, savedTeams := updatedSavedTeams }
    let championsToRemove := collectChamps finalChampions
    let removeCalls :=
      championsToRemove.flatMap (fun c =>
        (getChampionLanes s c).map (fun l => ApiCall.removeAvailable l c))
    let s4 := { s3 with availableChampions := removeFromAvailable s.availableChampions s championsToRemove }
    (s4, removeCalls ++ [ApiCall.saveTeam teamToSave, ApiCall.getSavedTeams])
  else (s, [])

/-- `loadAvailableChampions` for one lane: on success overwrite with the
response, on failure fall back to the static champion pool for the lane. -/
def loadAvailableChampions (s : AppState) (lane : Lane) (resp : Option (List String)) :
    AppState :=
  match resp with
  | some champions =>
      { s with availableChampions := s.availableChampions.set lane champions }
  | none =>
      { s with availableChampions := s.availableChampions.set lane (s.championPools.get lane) }

/-- One `Map.set` step of the merge in `loadSavedTeams`: replace the first
entry carrying the key (keeping its position, as a JS `Map` does) or append. -/
def tmInsert : List SavedTeam → SavedTeam → List SavedTeam
  | [], t => [t]
  | x :: xs, t =>
      if x.timestamp = t.timestamp then t :: xs else x :: tmInsert xs t

/-- The `teamMap` of `loadSavedTeams`: local entries inserted first, then
remote entries, remote overwriting on key conflict. -/
def mergeTeams (localTeams remoteTeams : List SavedTeam) : List SavedTeam :=
  remoteTeams.foldl tmInsert (localTeams.foldl tmInsert [])

/-- Newest-first ordering on saved teams
(the comparator `new Date(b.timestamp).getTime() - new Date(a.timestamp).getTime()`). -/
def tsGe (a b : SavedTeam) : Prop := b.timestamp ≤ a.timestamp

instance : DecidableRel tsGe := fun a b => Nat.decLe b.timestamp a.timestamp

instance : IsTotal SavedTeam tsGe :=
  ⟨fun a b => (Nat.le_total b.timestamp a.timestamp).elim Or.inl Or.inr⟩

instance : IsTrans SavedTeam tsGe :=
  ⟨fun _ _ _ h1 h2 => Nat.le_trans h2 h1⟩

/-- The `.sort` of `loadSavedTeams`. Merged entries carry pairwise distinct
timestamps, so the descending arrangement is unique and any sort w.r.t. the
comparator produces it. -/
def sortTeamsDesc (l : List SavedTeam) : List SavedTeam :=
  l.insertionSort tsGe

/-- `loadSavedTeams`: on a successful array response, merge local and remote
ledgers keyed by timestamp (remote wins) and sort newest first; on failure
(or a non-array response) leave the state untouched. -/
def loadSavedTeams (s : AppState) (fetch : Option (List SavedTeam)) : AppState :=
  match fetch with
  | none => s
  | some remoteTeams =>
      { s with savedTeams := sortTeamsDesc (mergeTeams s.savedTeams remoteTeams) }

/-- The `restoreAvailableChampion` fan-out of `deleteSavedTeam`: for each
non-null champion of the deleted team (lane order), one restore call per
lane the champion can play. -/
def restoreEffectsForTeam (s : AppState) (t : SavedTeam) : List ApiCall :=
  Lane.all.flatMap (fun l0 =>
    match t.team.get l0 with
    | some c => (getChampionLanes s c).map (fun l => ApiCall.restoreAvailable l c)
    | none => [])

/-- The `affectedLanes` set of `deleteSavedTeam` (insertion order). -/
def affectedLanesForTeam (s : AppState) (t : SavedTeam) : List Lane :=
  Lane.all.foldl
    (fun acc l0 =>
      match t.team.get l0 with
      | some c => (getChampionLanes s c).foldl setInsert acc
      | none => acc) []

/-- The played-champions recomputation at the end of `deleteSavedTeam`'s
success branch: the union of the non-null champions of the remaining teams. -/
def recomputePlayed (teams : List SavedTeam) : List String :=
  teams.foldl
    (fun acc t =>
      Lane.all.foldl
        (fun a l =>
          match t.team.get l with
          | some c => setInsert a c
          | none => a) acc) []

/-- Apply `loadAvailableChampions` over the affected lanes, each with its
own fetch outcome. -/
def reloadLanes (s : AppState) (lanes : List Lane) (availFetch : Lane → Option (List String)) :
    AppState :=
  lanes.foldl (fun st l => loadAvailableChampions st l (availFetch l)) s

/-- `deleteSavedTeam`: look the team up by timestamp; issue the remote
delete; in both the success and the failure branch, fan out
`restoreAvailableChampion` over every non-null champion of the team and
every lane it can play, reload the affected lanes, and drop the team from
the local list (the filter uses the `state` captured on entry, whose
`savedTeams` the intermediate steps did not change); the success branch
additionally reloads the ledger and recomputes `playedChampions` from the
remaining teams. `remoteOk` selects the branch, `availFetch`/`teamsFetch`
are the responses of the reloads. -/
def deleteSavedTeam (s : AppState) (ts : Nat) (remoteOk : Bool)
    (availFetch : Lane → Option (List String)) (teamsFetch : Option (List SavedTeam)) :
    AppState × List ApiCall :=
  let teamToDelete := s.savedTeams.find? (fun t => t.timestamp = ts)
  match teamToDelete with
  | some t =>
      let restoreCalls := restoreEffectsForTeam s t
      let lanes := affectedLanesForTeam s t
      let s1 := reloadLanes s lanes availFetch
      let s2 := { s1 with savedTeams := s.savedTeams.filter (fun tm => tm.timestamp ≠ ts) }
      if remoteOk then
        let s3 := loadSavedTeams s2 teamsFetch
        let s4 := { s3 with playedChampions := recomputePlayed s3.savedTeams }
        (s4, [ApiCall.deleteTeam ts] ++ restoreCalls
              ++ lanes.map ApiCall.loadAvailable ++ [ApiCall.getSavedTeams])
      else
        (s2, [ApiCall.deleteTeam ts] ++ restoreCalls ++ lanes.map ApiCall.loadAvailable)
  | none =>
      if remoteOk then
        let s2 := { s with savedTeams := s.savedTeams.filter (fun tm => tm.timestamp ≠ ts) }
        let s3 := loadSavedTeams s2 teamsFetch
        let s4 := { s3 with playedChampions := recomputePlayed s3.savedTeams }
        (s4, [ApiCall.deleteTeam ts, ApiCall.getSavedTeams])
      else
        ({ s with savedTeams := s.savedTeams.filter (fun tm => tm.timestamp ≠ ts) },
          [ApiCall.deleteTeam ts])

/-! ## Helper lemmas -/

@[simp] theorem saveIncompleteTeam_hasUsedReroll (s : AppState) (now : Nat) :
    (saveIncompleteTeam s now).hasUsedReroll = s.hasUsedReroll := rfl

@[simp] theorem saveIncompleteTeam_selectedChampions (s : AppState) (now : Nat) :
    (saveIncompleteTeam s now).selectedChampions = s.selectedChampions := rfl

@[simp] theorem saveIncompleteTeam_rerolledLanes (s : AppState) (now : Nat) :
    (saveIncompleteTeam s now).rerolledLanes = s.rerolledLanes := rfl

@[simp] theorem saveIncompleteTeam_pendingSelections (s : AppState) (now : Nat) :
    (saveIncompleteTeam s now).pendingSelections = s.pendingSelections := rfl

@[simp] theorem saveIncompleteTeam_savedTeams (s : AppState) (now : Nat) :
    (saveIncompleteTeam s now).savedTeams = s.savedTeams := rfl

theorem canLockIn_iff (s : AppState) :
    canLockIn s = true ↔ ∀ l, s.pendingSelections.get l ≠ some none := by
  unfold canLockIn
  rw [List.all_eq_true]
  constructor
  · intro h l hl
    have hh := h l (Lane.mem_all l)
    rw [hl] at hh
    simp at hh
  · intro h l _
    cases hp : s.pendingSelections.get l with
    | none => simp
    | some o =>
      cases o with
      | none => exact absurd hp (h l)
      | some c => simp

/-! ## Claims C1, C2 -/

/-- C1: if some lane has a null `pendingSelections` entry (an unresolved
reroll) then `canLockIn` is false and `lockInTeam` changes no state field
and issues no call; conversely `canLockIn` is true exactly when every
present entry is non-null (so in particular for an empty record). -/
theorem lockIn_guard_spec (s : AppState) (now : Nat) :
    (canLockIn s = true ↔ ∀ l, s.pendingSelections.get l ≠ some none) ∧
    ((∃ l, s.pendingSelections.get l = some none) →
      canLockIn s = false ∧ lockInTeam s now = (s, [])) := by
  refine ⟨canLockIn_iff s, ?_⟩
  rintro ⟨l, hl⟩
  have hc : canLockIn s = false := by
    cases hcl : canLockIn s with
    | false => rfl
    | true => exact absurd hl ((canLockIn_iff s).mp hcl l)
  refine ⟨hc, ?_⟩
  simp [lockInTeam, hc]

/-- An example state whose `top` entry is an unresolved (null) pending
selection. -/
def exPools : LaneMap (List String) := LaneMap.const ["A", "B", "C"]

def baseState : AppState :=
  { selectedChampions := LaneMap.const none
    randomizedLanes := []
    playedChampions := []
    teamLocked := false
    displayingSavedTeam := false
    savedTeams := []
    rerolledLanes := LaneMap.const none
    pendingSelections := LaneMap.const none
    hasUsedReroll := false
    incompleteTeams := []
    currentTeamId := none
    resetRoles := []
    championPools := exPools
    availableChampions := exPools }

def c1State : AppState :=
  { baseState with pendingSelections := (LaneMap.const none).set .top (some none) }

/-- Witness for C1 at a concrete state with an unresolved reroll on `top`. -/
theorem lockIn_guard_spec_witness :
    canLockIn c1State = false ∧ lockInTeam c1State 5 = (c1State, []) :=
  (lockIn_guard_spec c1State 5).2 ⟨.top, rfl⟩

/-- C2: once `hasUsedReroll` holds, `rerandomizeLane` is a complete no-op;
every state-changing run of `rerandomizeLane` sets `hasUsedReroll`; and
`resetForNewGame` is what clears the flag back to false. -/
theorem reroll_oneshot_spec (s : AppState) (lane : Lane) (k now : Nat) :
    (s.hasUsedReroll = true → rerandomizeLane s lane k now = s) ∧
    (rerandomizeLane s lane k now ≠ s →
      (rerandomizeLane s lane k now).hasUsedReroll = true) ∧
    (resetForNewGame s).hasUsedReroll = false := by
  refine ⟨?_, ?_, rfl⟩
  · intro h
    simp [rerandomizeLane, h]
  · intro hne
    by_cases hr : s.hasUsedReroll
    · exact absurd (by simp [rerandomizeLane, hr]) hne
    · cases hsel : s.selectedChampions.get lane with
      | none => exact absurd (by simp [rerandomizeLane, hr, hsel]) hne
      | some orig =>
        by_cases hav : getAvailableChampions s lane = []
        · exact absurd (by simp [rerandomizeLane, hr, hsel, hav]) hne
        · by_cases hfil :
              (getAvailableChampions s lane).filter (fun c => c ≠ orig) = []
          · exact absurd (by
              simp only [rerandomizeLane, hr, Bool.false_eq_true, if_false, hsel,
                List.length_eq_zero, hav, if_false, hfil, if_true]) hne
          · simp only [rerandomizeLane, hr, Bool.false_eq_true, if_false, hsel,
              List.length_eq_zero, hav, if_false, hfil, if_true,
              saveIncompleteTeam_hasUsedReroll]

def c2State : AppState := { baseState with hasUsedReroll := true }

/-- Witness for C2: with the flag already set, a reroll call is a no-op. -/
theorem reroll_oneshot_spec_witness :
    rerandomizeLane c2State .mid 3 9 = c2State :=
  (reroll_oneshot_spec c2State .mid 3 9).1 rfl

/-! ## Claims C6, C7, C3 -/

/-- The element `l[k % l.length]` drawn by a `Math.random` pick is in `l`. -/
theorem getD_mod_mem {α : Type} (l : List α) (k : Nat) (d : α) (h : l ≠ []) :
    l.getD (k % l.length) d ∈ l := by
  have hlen : 0 < l.length := List.length_pos.mpr h
  have hk : k % l.length < l.length := Nat.mod_lt k hlen
  rw [List.getD_eq_getElem?_getD, List.getElem?_eq_getElem hk]
  exact List.getElem_mem hk

/-- The success branch of `rerandomizeLane` as an equation. -/
theorem rerandomizeLane_success_eq (s : AppState) (lane : Lane) (k now : Nat) (orig : String)
    (hr : s.hasUsedReroll = false)
    (hsel : s.selectedChampions.get lane = some orig)
    (hfil : (getAvailableChampions s lane).filter (fun c => c ≠ orig) ≠ []) :
    rerandomizeLane s lane k now =
      saveIncompleteTeam
        { s with
          rerolledLanes := s.rerolledLanes.set lane
            (some (orig, ((getAvailableChampions s lane).filter (fun c => c ≠ orig)).getD
              (k % ((getAvailableChampions s lane).filter (fun c => c ≠ orig)).length) ""))
          pendingSelections := s.pendingSelections.set lane (some none)
          hasUsedReroll := true } now := by
  have hav : getAvailableChampions s lane ≠ [] := by
    intro h
    exact hfil (by simp [h])
  simp only [rerandomizeLane, hr, Bool.false_eq_true, if_false, hsel,
    List.length_eq_zero, hav, if_false, hfil, if_true]

/-- C6: with the reroll unused and a selection present, `rerandomizeLane` is
a no-op when no other candidate exists; otherwise the rerolled champion is
drawn from the candidates minus the original (hence differs from it), the
`{original, rerolled}` pair is recorded, the pending selection becomes null,
`hasUsedReroll` is set, and the lane's selection still shows the original. -/
theorem reroll_effect_spec (s : AppState) (lane : Lane) (k now : Nat) (orig : String)
    (hr : s.hasUsedReroll = false)
    (hsel : s.selectedChampions.get lane = some orig) :
    ((getAvailableChampions s lane).filter (fun c => c ≠ orig) = [] →
      rerandomizeLane s lane k now = s) ∧
    (∀ cands, cands = (getAvailableChampions s lane).filter (fun c => c ≠ orig) →
      cands ≠ [] →
      cands.getD (k % cands.length) "" ∈ cands ∧
      cands.getD (k % cands.length) "" ≠ orig ∧
      (rerandomizeLane s lane k now).rerolledLanes.get lane
        = some (orig, cands.getD (k % cands.length) "") ∧
      (rerandomizeLane s lane k now).pendingSelections.get lane = some none ∧
      (rerandomizeLane s lane k now).hasUsedReroll = true ∧
      (rerandomizeLane s lane k now).selectedChampions.get lane = some orig) := by
  constructor
  · intro hfil
    by_cases hav : getAvailableChampions s lane = []
    · simp [rerandomizeLane, hr, hsel, hav]
    · simp only [rerandomizeLane, hr, Bool.false_eq_true, if_false, hsel,
        List.length_eq_zero, hav, if_false, hfil, if_true]
  · intro cands hc hne
    subst hc
    have heq := rerandomizeLane_success_eq s lane k now orig hr hsel hne
    refine ⟨getD_mod_mem _ k "" hne, ?_, ?_, ?_, ?_, ?_⟩
    · have hmf := List.mem_filter.mp (getD_mod_mem _ k "" hne)
      simpa using hmf.2
    · rw [heq]
      simp [saveIncompleteTeam]
    · rw [heq]
      simp [saveIncompleteTeam]
    · rw [heq]
      simp [saveIncompleteTeam]
    · rw [heq]
      simpa [saveIncompleteTeam] using hsel

def c6State : AppState :=
  { baseState with
    selectedChampions := (LaneMap.const none).set .top (some "A")
    randomizedLanes := [.top] }

/-- Witness for C6: rerolling `top` away from `"A"` over pool
`["A","B","C"]` records `{original := "A", rerolled := "B"}`. -/
theorem reroll_effect_spec_witness :
    (rerandomizeLane c6State .top 0 7).rerolledLanes.get .top = some ("A", "B") ∧
    (rerandomizeLane c6State .top 0 7).hasUsedReroll = true := by
  have h := (reroll_effect_spec c6State .top 0 7 "A" rfl rfl).2
    ((getAvailableChampions c6State .top).filter (fun c => c ≠ "A")) rfl (by decide)
  refine ⟨?_, h.2.2.2.2.1⟩
  rw [h.2.2.1]
  decide

/-- C7: resolving a reroll with the given choice overwrites the lane's
selection and pending entry with the choice and drops the lane's
`rerolledLanes` entry; when no other lane is pending, `canLockIn` holds. -/
theorem resolveReroll_spec (s : AppState) (lane : Lane) (choice : String) (now : Nat)
    (o r : String) (hre : s.rerolledLanes.get lane = some (o, r))
    (_hch : choice = o ∨ choice = r) :
    (selectRerollChampion s lane choice now).selectedChampions.get lane = some choice ∧
    (selectRerollChampion s lane choice now).pendingSelections.get lane
      = some (some choice) ∧
    (selectRerollChampion s lane choice now).rerolledLanes.get lane = none ∧
    ((∀ l, l ≠ lane → s.pendingSelections.get l ≠ some none) →
      canLockIn (selectRerollChampion s lane choice now) = true) := by
  refine ⟨by simp [selectRerollChampion], by simp [selectRerollChampion],
    by simp [selectRerollChampion], ?_⟩
  intro hothers
  refine (canLockIn_iff _).mpr ?_
  intro l
  by_cases hl : l = lane
  · subst hl
    simp [selectRerollChampion]
  · have hp : (selectRerollChampion s lane choice now).pendingSelections.get l
        = s.pendingSelections.get l := by
      simp [selectRerollChampion, LaneMap.get_set_ne _ _ hl]
    rw [hp]
    exact hothers l hl

def c7State : AppState :=
  { baseState with
    selectedChampions := (LaneMap.const none).set .top (some "A")
    rerolledLanes := (LaneMap.const none).set .top (some ("A", "B"))
    pendingSelections := (LaneMap.const none).set .top (some none)
    hasUsedReroll := true }

/-- Witness for C7: resolving the `top` reroll to `"B"` makes the session
lockable and final. -/
theorem resolveReroll_spec_witness :
    (selectRerollChampion c7State .top "B" 4).selectedChampions.get .top = some "B" ∧
    canLockIn (selectRerollChampion c7State .top "B" 4) = true := by
  have h := resolveReroll_spec c7State .top "B" 4 "A" "B" rfl (Or.inr rfl)
  exact ⟨h.1, h.2.2.2 (by decide)⟩

/-- Characterization of the `incompleteTeamChampions` membership test. -/
theorem isOtherTeamChampion_eq_true (s : AppState) (c : String) :
    isOtherTeamChampion s c = true ↔
      ∃ t ∈ s.incompleteTeams, s.currentTeamId ≠ some t.id ∧ ∃ l, t.team.get l = some c := by
  unfold isOtherTeamChampion
  simp only [List.any_eq_true, Bool.and_eq_true, decide_eq_true_eq]
  constructor
  · rintro ⟨t, ht, hid, l, _, htl⟩
    exact ⟨t, ht, hid, l, htl⟩
  · rintro ⟨t, ht, hid, l, htl⟩
    exact ⟨t, ht, hid, l, Lane.mem_all l, htl⟩

/-- C3: a champion is offered for a lane exactly when it is in the
API-loaded availability list for the lane and in no incomplete-team
snapshot other than the caller's own (`id = currentTeamId`). -/
theorem available_excludes_other_drafts (s : AppState) (lane : Lane) (c : String) :
    c ∈ getAvailableChampions s lane ↔
      c ∈ s.availableChampions.get lane ∧
      ∀ t ∈ s.incompleteTeams, s.currentTeamId ≠ some t.id →
        ∀ l, t.team.get l ≠ some c := by
  unfold getAvailableChampions
  rw [List.mem_filter]
  constructor
  · rintro ⟨h1, h2⟩
    refine ⟨h1, ?_⟩
    intro t ht hid l htl
    have hb : isOtherTeamChampion s c = true :=
      (isOtherTeamChampion_eq_true s c).mpr ⟨t, ht, hid, l, htl⟩
    rw [hb] at h2
    simp at h2
  · rintro ⟨h1, h2⟩
    refine ⟨h1, ?_⟩
    cases hb : isOtherTeamChampion s c
    · simp
    · obtain ⟨t, ht, hid, l, htl⟩ := (isOtherTeamChampion_eq_true s c).mp hb
      exact absurd htl (h2 t ht hid l)

def otherIncomplete : IncompleteTeam :=
  { id := "team-1"
    timestamp := 1
    team := (LaneMap.const none).set .top (some "B")
    rerolledLanes := LaneMap.const none
    pendingSelections := LaneMap.const none
    hasUsedReroll := false }

def c3State : AppState :=
  { baseState with
    incompleteTeams := [otherIncomplete]
    currentTeamId := some "team-2" }

/-- Witness for C3: `"A"` stays offered while another session's snapshot
holds `"B"`. -/
theorem available_excludes_other_drafts_witness :
    "A" ∈ getAvailableChampions c3State .top :=
  (available_excludes_other_drafts c3State .top "A").mpr (by decide)

/-! ## Claims C8, C9, C10 -/

/-- C8 (amended): `randomizeChampion` is a no-op exactly on an empty
candidate list — it carries no already-randomized guard — and on a
non-empty list the pick is drawn from `getAvailableChampions`, the lane is
added to `randomizedLanes`, and `currentTeamId` is allocated when null. -/
theorem randomize_spec (s : AppState) (lane : Lane) (k now : Nat) :
    (getAvailableChampions s lane = [] → randomizeChampion s lane k now = s) ∧
    (getAvailableChampions s lane ≠ [] →
      (getAvailableChampions s lane).getD (k % (getAvailableChampions s lane).length) ""
          ∈ getAvailableChampions s lane ∧
      (randomizeChampion s lane k now).selectedChampions.get lane
        = some ((getAvailableChampions s lane).getD
            (k % (getAvailableChampions s lane).length) "") ∧
      lane ∈ (randomizeChampion s lane k now).randomizedLanes ∧
      (randomizeChampion s lane k now).currentTeamId
        = some (s.currentTeamId.getD (freshTeamId now))) := by
  constructor
  · intro h
    simp [randomizeChampion, h]
  · intro h
    have heq : randomizeChampion s lane k now =
        { s with
          selectedChampions := s.selectedChampions.set lane
            (some ((getAvailableChampions s lane).getD
              (k % (getAvailableChampions s lane).length) ""))
          randomizedLanes := setInsert s.randomizedLanes lane
          currentTeamId := some (s.currentTeamId.getD (freshTeamId now)) } := by
      simp only [randomizeChampion, List.length_eq_zero, h, if_false]
    refine ⟨getD_mod_mem _ k "" h, ?_, ?_, ?_⟩
    · rw [heq]
      simp
    · rw [heq]
      simp [mem_setInsert]
    · rw [heq]

def c8State : AppState :=
  { baseState with
    selectedChampions := (LaneMap.const none).set .top (some "A")
    randomizedLanes := [.top]
    currentTeamId := some "team-1" }

/-- Counterexample to C8 as stated: `top` is already randomized, yet
`randomizeChampion` re-picks and mutates the state (no guard on
`randomizedLanes` exists in the function). -/
theorem randomize_no_guard_cex :
    Lane.top ∈ c8State.randomizedLanes ∧ randomizeChampion c8State .top 1 0 ≠ c8State := by
  decide

/-- Witness for the amended C8 at a fresh state. -/
theorem randomize_spec_witness :
    (randomizeChampion baseState .top 0 3).selectedChampions.get .top = some "A" ∧
    Lane.top ∈ (randomizeChampion baseState .top 0 3).randomizedLanes := by
  have h := (randomize_spec baseState .top 0 3).2 (by decide)
  refine ⟨?_, h.2.2.1⟩
  rw [h.2.1]
  decide

/-- C9: `deleteIncompleteTeam` touches only `incompleteTeams` (dropping the
entry with the id) and `currentTeamId` (cleared only when it equalled the
id), issues no remote call, and leaves every other field unchanged. -/
theorem deleteIncomplete_frame (s : AppState) (id : String) :
    (deleteIncompleteTeam s id).2 = [] ∧
    (deleteIncompleteTeam s id).1.incompleteTeams
      = s.incompleteTeams.filter (fun t => t.id ≠ id) ∧
    (deleteIncompleteTeam s id).1.currentTeamId
      = (if s.currentTeamId = some id then none else s.currentTeamId) ∧
    (deleteIncompleteTeam s id).1.availableChampions = s.availableChampions ∧
    (deleteIncompleteTeam s id).1.playedChampions = s.playedChampions ∧
    (deleteIncompleteTeam s id).1.savedTeams = s.savedTeams ∧
    (deleteIncompleteTeam s id).1.selectedChampions = s.selectedChampions ∧
    (deleteIncompleteTeam s id).1.pendingSelections = s.pendingSelections ∧
    (deleteIncompleteTeam s id).1.rerolledLanes = s.rerolledLanes ∧
    (deleteIncompleteTeam s id).1.hasUsedReroll = s.hasUsedReroll ∧
    (deleteIncompleteTeam s id).1.randomizedLanes = s.randomizedLanes ∧
    (deleteIncompleteTeam s id).1.resetRoles = s.resetRoles ∧
    (deleteIncompleteTeam s id).1.championPools = s.championPools ∧
    (deleteIncompleteTeam s id).1.teamLocked = s.teamLocked ∧
    (deleteIncompleteTeam s id).1.displayingSavedTeam = s.displayingSavedTeam :=
  ⟨rfl, rfl, rfl, rfl, rfl, rfl, rfl, rfl, rfl, rfl, rfl, rfl, rfl, rfl, rfl⟩

/-- C10: with no pending entries at all, `canLockIn` holds regardless of
how many roles are filled, and `lockInTeam` appends a `SavedTeam` whose
role mapping is the (possibly entirely null) current selection. -/
theorem lockIn_partial_draft_spec (s : AppState) (now : Nat)
    (hp : ∀ l, s.pendingSelections.get l = none) :
    canLockIn s = true ∧
    (lockInTeam s now).1.savedTeams
      = s.savedTeams
          ++ [{ timestamp := now, team := s.selectedChampions, isAdminCreated := false }] ∧
    (∀ l, s.selectedChampions.get l = none →
      ∃ t, (lockInTeam s now).1.savedTeams.getLast? = some t ∧ t.team.get l = none) := by
  have hc : canLockIn s = true :=
    (canLockIn_iff s).mpr (fun l => by rw [hp l]; simp)
  have happ : applyPending s.selectedChampions s.pendingSelections = s.selectedChampions := by
    have ht : s.pendingSelections.top = none := hp .top
    have hj : s.pendingSelections.jungle = none := hp .jungle
    have hm : s.pendingSelections.mid = none := hp .mid
    have ha : s.pendingSelections.adc = none := hp .adc
    have hs2 : s.pendingSelections.support = none := hp .support
    unfold applyPending resolvePend
    rw [ht, hj, hm, ha, hs2]
  have hsv : (lockInTeam s now).1.savedTeams
      = s.savedTeams
          ++ [{ timestamp := now, team := s.selectedChampions, isAdminCreated := false }] := by
    simp only [lockInTeam, hc, if_true, happ]
  refine ⟨hc, hsv, ?_⟩
  intro l hl
  refine ⟨{ timestamp := now, team := s.selectedChampions, isAdminCreated := false }, ?_, hl⟩
  rw [hsv]
  exact List.getLast?_concat _

/-- Witness for C10: locking in a completely empty draft appends a team of
five nulls. -/
theorem lockIn_partial_draft_spec_witness :
    canLockIn baseState = true ∧
    (lockInTeam baseState 3).1.savedTeams
      = [{ timestamp := 3, team := LaneMap.const none, isAdminCreated := false }] := by
  have h := lockIn_partial_draft_spec baseState 3 (fun l => by cases l <;> rfl)
  exact ⟨h.1, by simpa using h.2.1⟩

/-! ## Claims C5, C4 -/

/-- The timestamp keys of a team list. -/
def teamKeys (l : List SavedTeam) : List Nat := l.map SavedTeam.timestamp

@[simp] theorem teamKeys_nil : teamKeys [] = [] := rfl

@[simp] theorem teamKeys_cons (y : SavedTeam) (l : List SavedTeam) :
    teamKeys (y :: l) = y.timestamp :: teamKeys l := rfl

theorem ts_mem_teamKeys {x : SavedTeam} {l : List SavedTeam} (h : x ∈ l) :
    x.timestamp ∈ teamKeys l :=
  List.mem_map_of_mem _ h

theorem mem_tmInsert {x t : SavedTeam} :
    ∀ {m : List SavedTeam}, x ∈ tmInsert m t → x ∈ m ∨ x = t := by
  intro m
  induction m with
  | nil =>
    intro h
    simp only [tmInsert, List.mem_singleton] at h
    exact Or.inr h
  | cons y ys ih =>
    intro h
    unfold tmInsert at h
    split at h
    · rcases List.mem_cons.mp h with h1 | h1
      · exact Or.inr h1
      · exact Or.inl (List.mem_cons_of_mem _ h1)
    · rcases List.mem_cons.mp h with h1 | h1
      · exact Or.inl (h1 ▸ List.mem_cons_self _ _)
      · rcases ih h1 with h2 | h2
        · exact Or.inl (List.mem_cons_of_mem _ h2)
        · exact Or.inr h2

theorem mem_tmInsert_ne_key {x t : SavedTeam} :
    ∀ {m : List SavedTeam}, x ∈ tmInsert m t → x.timestamp ≠ t.timestamp → x ∈ m := by
  intro m
  induction m with
  | nil =>
    intro h hne
    simp only [tmInsert, List.mem_singleton] at h
    exact absurd (h ▸ rfl) hne
  | cons y ys ih =>
    intro h hne
    unfold tmInsert at h
    split at h
    · rcases List.mem_cons.mp h with h1 | h1
      · exact absurd (h1 ▸ rfl) hne
      · exact List.mem_cons_of_mem _ h1
    · rcases List.mem_cons.mp h with h1 | h1
      · exact h1 ▸ List.mem_cons_self _ _
      · exact List.mem_cons_of_mem _ (ih h1 hne)

theorem mem_tmInsert_same_key {x t : SavedTeam} :
    ∀ {m : List SavedTeam}, (teamKeys m).Nodup → x ∈ tmInsert m t →
      x.timestamp = t.timestamp → x = t := by
  intro m
  induction m with
  | nil =>
    intro _ h _
    simpa [tmInsert] using h
  | cons y ys ih =>
    intro hn h hk
    rw [teamKeys_cons, List.nodup_cons] at hn
    unfold tmInsert at h
    split at h
    · rename_i hy
      rcases List.mem_cons.mp h with h1 | h1
      · exact h1
      · refine absurd ?_ hn.1
        rw [hy, ← hk]
        exact ts_mem_teamKeys h1
    · rename_i hy
      rcases List.mem_cons.mp h with h1 | h1
      · exact absurd (h1 ▸ hk) hy
      · exact ih hn.2 h1 hk

theorem teamKeys_tmInsert (m : List SavedTeam) (t : SavedTeam) (k : Nat) :
    k ∈ teamKeys (tmInsert m t) ↔ k ∈ teamKeys m ∨ k = t.timestamp := by
  induction m with
  | nil => simp [tmInsert]
  | cons y ys ih =>
    unfold tmInsert
    split
    · rename_i hy
      rw [teamKeys_cons, teamKeys_cons]
      simp only [List.mem_cons, hy]
      tauto
    · rw [teamKeys_cons, teamKeys_cons]
      simp only [List.mem_cons, ih]
      tauto

theorem nodup_teamKeys_tmInsert (m : List SavedTeam) (t : SavedTeam)
    (h : (teamKeys m).Nodup) : (teamKeys (tmInsert m t)).Nodup := by
  induction m with
  | nil => simp [tmInsert]
  | cons y ys ih =>
    unfold tmInsert
    rw [teamKeys_cons, List.nodup_cons] at h
    split
    · rename_i hy
      rw [teamKeys_cons, List.nodup_cons]
      exact ⟨hy ▸ h.1, h.2⟩
    · rename_i hy
      rw [teamKeys_cons, List.nodup_cons]
      refine ⟨?_, ih h.2⟩
      intro hmem
      rcases (teamKeys_tmInsert ys t y.timestamp).mp hmem with h1 | h1
      · exact h.1 h1
      · exact hy h1

theorem mem_foldl_tmInsert {x : SavedTeam} :
    ∀ (l m : List SavedTeam), x ∈ l.foldl tmInsert m → x ∈ m ∨ x ∈ l := by
  intro l
  induction l with
  | nil =>
    intro m h
    exact Or.inl h
  | cons t ts ih =>
    intro m h
    rcases ih (tmInsert m t) h with h1 | h1
    · rcases mem_tmInsert h1 with h2 | h2
      · exact Or.inl h2
      · exact Or.inr (h2 ▸ List.mem_cons_self _ _)
    · exact Or.inr (List.mem_cons_of_mem _ h1)

theorem teamKeys_foldl_tmInsert (k : Nat) :
    ∀ (l m : List SavedTeam),
      k ∈ teamKeys (l.foldl tmInsert m) ↔ k ∈ teamKeys m ∨ k ∈ teamKeys l := by
  intro l
  induction l with
  | nil => simp
  | cons t ts ih =>
    intro m
    rw [List.foldl_cons, ih, teamKeys_tmInsert, teamKeys_cons]
    simp only [List.mem_cons]
    tauto

theorem nodup_teamKeys_foldl_tmInsert :
    ∀ (l m : List SavedTeam), (teamKeys m).Nodup → (teamKeys (l.foldl tmInsert m)).Nodup := by
  intro l
  induction l with
  | nil =>
    intro m h
    exact h
  | cons t ts ih =>
    intro m h
    exact ih _ (nodup_teamKeys_tmInsert m t h)

theorem mem_of_foldl_tmInsert_not_key {x : SavedTeam} :
    ∀ (l m : List SavedTeam), x ∈ l.foldl tmInsert m → x.timestamp ∉ teamKeys l → x ∈ m := by
  intro l
  induction l with
  | nil =>
    intro m h _
    exact h
  | cons t ts ih =>
    intro m h hk
    have hk1 : x.timestamp ∉ teamKeys ts := fun hh => hk (by simp [hh])
    have hk2 : x.timestamp ≠ t.timestamp := fun hh => hk (by simp [hh])
    exact mem_tmInsert_ne_key (ih _ h hk1) hk2

theorem remote_wins_foldl {x : SavedTeam} :
    ∀ (l m : List SavedTeam), (teamKeys m).Nodup → x ∈ l.foldl tmInsert m →
      x.timestamp ∈ teamKeys l → x ∈ l := by
  intro l
  induction l with
  | nil =>
    intro m _ _ hk
    simp at hk
  | cons t ts ih =>
    intro m hn h hk
    by_cases hts : x.timestamp ∈ teamKeys ts
    · exact List.mem_cons_of_mem _ (ih _ (nodup_teamKeys_tmInsert m t hn) h hts)
    · have h1 : x ∈ tmInsert m t := mem_of_foldl_tmInsert_not_key ts _ h hts
      have hkt : x.timestamp = t.timestamp := by
        rcases List.mem_cons.mp (by simpa using hk) with h2 | h2
        · exact h2
        · exact absurd h2 hts
      exact (mem_tmInsert_same_key hn h1 hkt) ▸ List.mem_cons_self _ _

/-- C5: `loadSavedTeams` leaves everything untouched on fetch failure; on
success the merged ledger has pairwise distinct timestamp keys, is sorted
newest first, contains only local or remote entries, resolves any timestamp
present remotely to the remote entry (remote wins), and carries exactly the
union of the local and remote key sets. -/
theorem loadSavedTeams_spec (s : AppState) (remote : List SavedTeam) :
    loadSavedTeams s none = s ∧
    (teamKeys (loadSavedTeams s (some remote)).savedTeams).Nodup ∧
    List.Sorted tsGe (loadSavedTeams s (some remote)).savedTeams ∧
    (∀ t ∈ (loadSavedTeams s (some remote)).savedTeams, t ∈ s.savedTeams ∨ t ∈ remote) ∧
    (∀ t ∈ (loadSavedTeams s (some remote)).savedTeams,
      t.timestamp ∈ teamKeys remote → t ∈ remote) ∧
    (∀ k, k ∈ teamKeys (loadSavedTeams s (some remote)).savedTeams ↔
      k ∈ teamKeys s.savedTeams ∨ k ∈ teamKeys remote) := by
  have hperm : List.Perm (sortTeamsDesc (mergeTeams s.savedTeams remote))
      (mergeTeams s.savedTeams remote) :=
    List.perm_insertionSort tsGe _
  have hnodupM : (teamKeys (mergeTeams s.savedTeams remote)).Nodup := by
    unfold mergeTeams
    exact nodup_teamKeys_foldl_tmInsert _ _ (nodup_teamKeys_foldl_tmInsert _ _ (by simp))
  refine ⟨rfl, ?_, ?_, ?_, ?_, ?_⟩
  · exact ((hperm.map SavedTeam.timestamp).nodup_iff).mpr hnodupM
  · exact List.sorted_insertionSort tsGe _
  · intro t ht
    have hm := hperm.mem_iff.mp ht
    unfold mergeTeams at hm
    rcases mem_foldl_tmInsert _ _ hm with h1 | h1
    · rcases mem_foldl_tmInsert _ _ h1 with h2 | h2
      · simp at h2
      · exact Or.inl h2
    · exact Or.inr h1
  · intro t ht hk
    have hm := hperm.mem_iff.mp ht
    unfold mergeTeams at hm
    exact remote_wins_foldl _ _ (nodup_teamKeys_foldl_tmInsert _ _ (by simp)) hm hk
  · intro k
    have hkperm : k ∈ teamKeys (sortTeamsDesc (mergeTeams s.savedTeams remote)) ↔
        k ∈ teamKeys (mergeTeams s.savedTeams remote) :=
      (hperm.map SavedTeam.timestamp).mem_iff
    refine hkperm.trans ?_
    unfold mergeTeams
    rw [teamKeys_foldl_tmInsert, teamKeys_foldl_tmInsert]
    simp

def c5State : AppState :=
  { baseState with
    savedTeams :=
      [{ timestamp := 9, team := LaneMap.const none, isAdminCreated := false }] }

/-- Witness for C5: a failed fetch leaves the locally cached ledger as is. -/
theorem loadSavedTeams_spec_witness :
    loadSavedTeams c5State none = c5State :=
  (loadSavedTeams_spec c5State []).1

theorem mem_restoreEffects {s : AppState} {T : SavedTeam} {l0 : Lane} {c : String}
    (h : T.team.get l0 = some c) {l : Lane} (hl : l ∈ getChampionLanes s c) :
    ApiCall.restoreAvailable l c ∈ restoreEffectsForTeam s T := by
  unfold restoreEffectsForTeam
  rw [List.mem_flatMap]
  refine ⟨l0, Lane.mem_all l0, ?_⟩
  rw [h]
  exact List.mem_map_of_mem _ hl

theorem mem_filter_savedTeams_ne {s : List SavedTeam} {ts : Nat} :
    ∀ t ∈ s.filter (fun tm => tm.timestamp ≠ ts), t.timestamp ≠ ts := by
  intro t ht
  have := (List.mem_filter.mp ht).2
  simpa using this

theorem loadSavedTeams_no_ts (s : AppState) (fetch : Option (List SavedTeam)) (ts : Nat)
    (h1 : ∀ t ∈ s.savedTeams, t.timestamp ≠ ts)
    (h2 : ∀ t ∈ fetch.getD [], t.timestamp ≠ ts) :
    ∀ t ∈ (loadSavedTeams s fetch).savedTeams, t.timestamp ≠ ts := by
  cases fetch with
  | none => exact h1
  | some remote =>
    intro t ht
    have hperm : List.Perm (sortTeamsDesc (mergeTeams s.savedTeams remote))
        (mergeTeams s.savedTeams remote) := List.perm_insertionSort tsGe _
    have hm := hperm.mem_iff.mp ht
    unfold mergeTeams at hm
    rcases mem_foldl_tmInsert _ _ hm with hA | hA
    · rcases mem_foldl_tmInsert _ _ hA with hB | hB
      · simp at hB
      · exact h1 t hB
    · exact h2 t (by simpa using hA)

/-- C4: deleting a saved team with the given timestamp fans out a
`restoreAvailableChampion` call for every non-null champion of the team and
every lane it can play — in the success branch and in the remote-failure
branch alike — and the team no longer appears in the local `savedTeams`
list (given that the post-delete ledger fetch, when one happens, no longer
carries the timestamp, which is what a successful remote delete ensures). -/
theorem deleteSavedTeam_spec (s : AppState) (ts : Nat) (remoteOk : Bool)
    (availFetch : Lane → Option (List String)) (teamsFetch : Option (List SavedTeam))
    (T : SavedTeam)
    (hT : s.savedTeams.find? (fun t => t.timestamp = ts) = some T)
    (hfetch : ∀ t ∈ teamsFetch.getD [], t.timestamp ≠ ts) :
    (∀ l0 c, T.team.get l0 = some c → ∀ l ∈ getChampionLanes s c,
      ApiCall.restoreAvailable l c ∈ (deleteSavedTeam s ts remoteOk availFetch teamsFetch).2) ∧
    (∀ tm ∈ (deleteSavedTeam s ts remoteOk availFetch teamsFetch).1.savedTeams,
      tm.timestamp ≠ ts) := by
  cases remoteOk with
  | true =>
    constructor
    · intro l0 c hc l hl
      have hmem := mem_restoreEffects hc hl
      simp only [deleteSavedTeam, hT, if_true, List.mem_append, List.mem_cons]
      tauto
    · intro tm htm
      simp only [deleteSavedTeam, hT, if_true] at htm
      exact loadSavedTeams_no_ts _ teamsFetch ts mem_filter_savedTeams_ne hfetch tm htm
  | false =>
    constructor
    · intro l0 c hc l hl
      have hmem := mem_restoreEffects hc hl
      simp only [deleteSavedTeam, hT, Bool.false_eq_true, if_false, List.mem_append,
        List.mem_cons]
      tauto
    · intro tm htm
      simp only [deleteSavedTeam, hT, Bool.false_eq_true, if_false] at htm
      exact mem_filter_savedTeams_ne tm htm

def c4Team : SavedTeam :=
  { timestamp := 7
    team := (LaneMap.const none).set .top (some "A")
    isAdminCreated := false }

def c4State : AppState := { baseState with savedTeams := [c4Team] }

/-- Witness for C4: even with the remote delete failing, the champion of
the deleted team is restored for a lane it plays, and the team leaves the
local list. -/
theorem deleteSavedTeam_spec_witness :
    ApiCall.restoreAvailable .top "A"
      ∈ (deleteSavedTeam c4State 7 false (fun _ => none) none).2 ∧
    (deleteSavedTeam c4State 7 false (fun _ => none) none).1.savedTeams = [] := by
  have h := deleteSavedTeam_spec c4State 7 false (fun _ => none) none c4Team
    (by decide) (by simp)
  refine ⟨h.1 .top "A" rfl .top (by decide), ?_⟩
  decide
